import Mathlib

/-!
Shallow embedding of `check_games.py` (KofC council matchups announcer) and
proofs about its specification claims.

Python strings are modelled as `List Char` / `String`; Python dicts used as
lookup tables are modelled as functions `String → Option String` built by
repeated overwriting insertion, matching dict-assignment semantics.
`str.lower` is modelled character-wise on the ASCII and Latin-1 uppercase
ranges (the only ranges relevant to the characters occurring in the program's
string constants).
-/

namespace CheckGames

/-- Models Python's whitespace set for `str.split()` / `str.strip()`
(ASCII whitespace characters). -/
def pyIsSpace (c : Char) : Bool :=
  c = ' ' || c = '\t' || c = '\n' || c = '\r' || c = '\x0b' || c = '\x0c'

/-- Models Python `str.lower` character-wise: ASCII `A`–`Z` and Latin-1
`À`–`Þ` (except `×`) map 32 code points up; everything else is unchanged. -/
def lowerChar (c : Char) : Char :=
  if (65 ≤ c.toNat ∧ c.toNat ≤ 90) ∨
      (192 ≤ c.toNat ∧ c.toNat ≤ 222 ∧ c.toNat ≠ 215) then
    Char.ofNat (c.toNat + 32)
  else c

/-- Fuel-indexed worker for `replaceList` (structural recursion on the fuel,
so that it evaluates inside the kernel). -/
def replaceFuel (pat rep : List Char) : Nat → List Char → List Char
  | _, [] => []
  | 0, l => l
  | fuel + 1, c :: cs =>
    if pat ≠ [] ∧ pat.isPrefixOf (c :: cs) then
      rep ++ replaceFuel pat rep fuel (cs.drop (pat.length - 1))
    else
      c :: replaceFuel pat rep fuel cs

/-- Models Python `str.replace pat rep`: left-to-right, non-overlapping,
scanning resumes after the replacement text. -/
def replaceList (pat rep l : List Char) : List Char :=
  replaceFuel pat rep l.length l

/-- Models Python `str.strip()` (no arguments): drop whitespace from both
ends. -/
def stripWs (l : List Char) : List Char :=
  ((l.dropWhile pyIsSpace).reverse.dropWhile pyIsSpace).reverse

/-- Accumulator worker for `pyWords`. -/
def wordsAux : List Char → List Char → List (List Char)
  | [], acc => if acc = [] then [] else [acc.reverse]
  | c :: cs, acc =>
    if pyIsSpace c then
      if acc = [] then wordsAux cs [] else acc.reverse :: wordsAux cs []
    else wordsAux cs (c :: acc)

/-- Models Python `str.split()` (no arguments): split on whitespace runs,
discarding empty pieces. -/
def pyWords (l : List Char) : List (List Char) := wordsAux l []

/-- Models Python `" ".join ws`. -/
def joinWords : List (List Char) → List Char
  | [] => []
  | [w] => w
  | w :: ws => w ++ ' ' :: joinWords ws

/-- Models the `" ".join(s.split())` whitespace-collapsing idiom. -/
def collapseWs (l : List Char) : List Char :=
  joinWords (pyWords l)

/-- The lower/strip/replace part of `normalize`, innermost first, in the
source's dictionary order.  The two three-character replacement patterns
are the source file's literal (mojibake) byte sequences
`U+201A U+00C4 U+00EE` and `U+201A U+00C4 U+00F4`, exactly as Python reads
them from the UTF-8 source. -/
def normalizeChain (l : List Char) : List Char :=
  replaceList ['‚', 'Ä', 'ô'] []
    (replaceList ['\''] []
      (replaceList ['‚', 'Ä', 'î'] [' ']
        (replaceList ['-'] [' ']
          (replaceList [','] []
            (replaceList ['.'] []
              (replaceList ['&'] [' ', 'a', 'n', 'd', ' ']
                (stripWs (l.map lowerChar))))))))

/-- The `normalize` helper of `check_games.py`, on character lists: the
falsy-input early return, then the replacement chain, then whitespace
collapse. -/
def normalizeL (l : List Char) : List Char :=
  if l = [] then [] else collapseWs (normalizeChain l)

/-- `normalize` from `check_games.py` (lines 45–62). -/
def normalize (s : String) : String := String.mk (normalizeL s.data)

example : normalize "St. Mary's" = "st marys" := by decide
example : normalize "  Foo   U " = "foo u" := by decide
example : normalize "A&M" = "a and m" := by decide
example : normalize "" = "" := by decide

/-! ### Python JSON values

`PyJson` models the values `json.loads` can produce from the feeds and the
issue body, as Python objects (objects/floats are not needed by any claim;
integers model JSON numbers). -/

inductive PyJson where
  | null
  | bool (b : Bool)
  | num (n : Int)
  | str (s : String)
  | arr (l : List PyJson)

mutual
def pyJsonDecEq : (a b : PyJson) → Decidable (a = b)
  | .null, .null => .isTrue rfl
  | .null, .bool _ => .isFalse nofun
  | .null, .num _ => .isFalse nofun
  | .null, .str _ => .isFalse nofun
  | .null, .arr _ => .isFalse nofun
  | .bool _, .null => .isFalse nofun
  | .bool a, .bool b =>
    if h : a = b then .isTrue (by rw [h]) else .isFalse (by intro k; cases k; exact h rfl)
  | .bool _, .num _ => .isFalse nofun
  | .bool _, .str _ => .isFalse nofun
  | .bool _, .arr _ => .isFalse nofun
  | .num _, .null => .isFalse nofun
  | .num _, .bool _ => .isFalse nofun
  | .num a, .num b =>
    if h : a = b then .isTrue (by rw [h]) else .isFalse (by intro k; cases k; exact h rfl)
  | .num _, .str _ => .isFalse nofun
  | .num _, .arr _ => .isFalse nofun
  | .str _, .null => .isFalse nofun
  | .str _, .bool _ => .isFalse nofun
  | .str _, .num _ => .isFalse nofun
  | .str a, .str b =>
    if h : a = b then .isTrue (by rw [h]) else .isFalse (by intro k; cases k; exact h rfl)
  | .str _, .arr _ => .isFalse nofun
  | .arr _, .null => .isFalse nofun
  | .arr _, .bool _ => .isFalse nofun
  | .arr _, .num _ => .isFalse nofun
  | .arr _, .str _ => .isFalse nofun
  | .arr a, .arr b =>
    match pyJsonListDecEq a b with
    | .isTrue h => .isTrue (by rw [h])
    | .isFalse h => .isFalse (by intro k; cases k; exact h rfl)
def pyJsonListDecEq : (a b : List PyJson) → Decidable (a = b)
  | [], [] => .isTrue rfl
  | [], _ :: _ => .isFalse nofun
  | _ :: _, [] => .isFalse nofun
  | a :: as, b :: bs =>
    match pyJsonDecEq a b with
    | .isFalse h => .isFalse (by intro k; cases k; exact h rfl)
    | .isTrue h1 =>
      match pyJsonListDecEq as bs with
      | .isTrue h2 => .isTrue (by rw [h1, h2])
      | .isFalse h2 => .isFalse (by intro k; cases k; exact h2 rfl)
end

instance : DecidableEq PyJson := pyJsonDecEq

/-- Decimal digits accumulator, models the digit loop of Python `str(int)`. -/
def natStrAux : Nat → Nat → List Char → List Char
  | 0, _, acc => acc
  | fuel + 1, n, acc =>
    let d := Char.ofNat (48 + n % 10)
    if n / 10 = 0 then d :: acc else natStrAux fuel (n / 10) (d :: acc)

/-- Decimal rendering of a natural number. -/
def natStr (n : Nat) : String := String.mk (natStrAux (n + 1) n [])

/-- Models Python `str(i)` for an integer `i`. -/
def pyIntStr (i : Int) : String :=
  if i < 0 then "-" ++ natStr i.natAbs else natStr i.toNat

example : pyIntStr 2782 = "2782" := by decide
example : pyIntStr (-5) = "-5" := by decide
example : pyIntStr 0 = "0" := by decide

mutual
/-- Models Python `repr` on JSON-derived values (element rendering inside
`str` of a list; quote-escaping inside string elements is not modelled). -/
def pyReprJson : PyJson → String
  | .null => "None"
  | .bool b => if b then "True" else "False"
  | .num n => pyIntStr n
  | .str s => "'" ++ s ++ "'"
  | .arr l => "[" ++ pyReprJsonList l ++ "]"
def pyReprJsonList : List PyJson → String
  | [] => ""
  | [x] => pyReprJson x
  | x :: y :: xs => pyReprJson x ++ ", " ++ pyReprJsonList (y :: xs)
end

/-- Models Python `str` on JSON-derived values. -/
def pyStrJson : PyJson → String
  | .str s => s
  | j => pyReprJson j

/-- Models Python `str(x)` where `x` may be `None` (a missing key fetched
with `.get`): `str(None) = "None"`. -/
def pyStrOpt : Option PyJson → String
  | none => "None"
  | some j => pyStrJson j

/-! ### Registry and lookup tables -/

/-- One entry of `council_schools.json` (the registry): field shape as
documented in `load_councils` and consumed by `build_lookup`. -/
structure CouncilInfo where
  official_name : Option String
  official : Option String
  council : Option Int
  aliases : List (List String)
  espn_ids : List Int
deriving DecidableEq

/-- The registry: canonical id → info, as an insertion-ordered association
list (Python dict semantics). -/
abbrev Registry := List (String × CouncilInfo)

/-- A Python dict used as a string-keyed lookup table. -/
abbrev Dict := String → Option String

/-- The empty dict. -/
def demp : Dict := fun _ => none

/-- Dict assignment `d[k] = v` (overwrites any earlier binding of `k`). -/
def dinsert (f : Dict) (k v : String) : Dict :=
  fun x => if x = k then some v else f x

/-- `official = info.get("official_name") or info.get("official", "")`. -/
def officialVal (info : CouncilInfo) : String :=
  match info.official_name with
  | some s => if s ≠ "" then s else info.official.getD ""
  | none => info.official.getD ""

/-- `num = str(info.get("council", ""))` (an integer renders in decimal; a
missing key gives `str("") = ""`). -/
def councilNum (info : CouncilInfo) : String :=
  match info.council with
  | some n => pyIntStr n
  | none => ""

/-- The alias-table registrations of one registry entry, in source order:
every alias of every group, then the official name when truthy. -/
def registerAliases (acc : Dict) (cid : String) (info : CouncilInfo) : Dict :=
  let acc := info.aliases.foldl
    (fun a grp => grp.foldl (fun a al => dinsert a (normalize al) cid) a) acc
  if officialVal info ≠ "" then dinsert acc (normalize (officialVal info)) cid
  else acc

/-- Result triple of `build_lookup`. -/
structure Lookups where
  alias_lookup : Dict
  espn_id_lookup : Dict
  council_by_number : Dict

/-- `build_lookup` from `check_games.py` (lines 65–84). -/
def build_lookup (councils : Registry) : Lookups :=
  councils.foldl
    (fun acc entry =>
      { alias_lookup := registerAliases acc.alias_lookup entry.1 entry.2
        espn_id_lookup := entry.2.espn_ids.foldl
          (fun e i => dinsert e (pyIntStr i) entry.1) acc.espn_id_lookup
        council_by_number :=
          dinsert acc.council_by_number (councilNum entry.2) entry.1 })
    { alias_lookup := demp, espn_id_lookup := demp, council_by_number := demp }

/-- The normalized alias keys registered by one entry. -/
def entryAliasKeys (info : CouncilInfo) : List String :=
  (info.aliases.flatten.map normalize) ++
    (if officialVal info ≠ "" then [normalize (officialVal info)] else [])

/-! ### Team resolution -/

/-- The `"team"` sub-object of an ESPN competitor (string-valued name
fields, per the ESPN schema; a missing `"team"` dict is the all-`none`
value). -/
structure Team where
  id : Option String
  name : Option String
  displayName : Option String
  shortDisplayName : Option String
  location : Option String
  abbreviation : Option String
deriving DecidableEq, Inhabited

/-- An ESPN competitor object. -/
structure Competitor where
  homeAway : Option String
  team : Team
deriving DecidableEq, Inhabited

/-- `display = team.get("displayName", "") or team.get("shortDisplayName", "")`
(the first truthy value; `""` when both are missing or empty). -/
def primaryDisplay (t : Team) : String :=
  if t.displayName.getD "" ≠ "" then t.displayName.getD ""
  else t.shortDisplayName.getD ""

/-- One iteration of the fallback-field loop of `resolve_team`:
`if v and normalize(v) in alias_lookup: return alias_lookup[normalize(v)]`. -/
def tryAliasField (alias_lookup : Dict) (v : Option String) : Option String :=
  match v with
  | some s => if s ≠ "" then alias_lookup (normalize s) else none
  | none => none

/-- `resolve_team` from `check_games.py` (lines 87–104), translated
return-point by return-point. -/
def resolve_team (tobj : Competitor) (alias_lookup espn_id_lookup : Dict) :
    Option String :=
  let team := tobj.team
  let step1 : Option String :=
    match team.id with
    | some tid => if tid ≠ "" then espn_id_lookup tid else none
    | none => none
  (step1 <|> alias_lookup (normalize (primaryDisplay team))) <|>
    [team.name, team.displayName, team.shortDisplayName, team.location,
      team.abbreviation].findSome? (tryAliasField alias_lookup)

/-- Modelled from the spec wording of C4: a fixed ordered list of
resolution strategies — (a) external-id table by source-assigned id,
(b) alias table by normalized primary display name, (c) alias table by
each fallback name field in order — where the first strategy that
succeeds wins, with no ranking across candidate fields. -/
def resolveTeamSpec (tobj : Competitor) (alias_lookup espn_id_lookup : Dict) :
    Option String :=
  let team := tobj.team
  let strategies : List (Option String) :=
    [ (match team.id with
       | some tid => if tid ≠ "" then espn_id_lookup tid else none
       | none => none),
      alias_lookup (normalize (primaryDisplay team)) ] ++
    [team.name, team.displayName, team.shortDisplayName, team.location,
      team.abbreviation].map (tryAliasField alias_lookup)
  strategies.findSome? id

/-! ### Start-time formatting

`format_time` parses an ISO timestamp with `datetime.fromisoformat` (after
`iso_time.replace("Z", "+00:00")`), converts it to the configured time zone
(default `US/Central`), renders `"%b %d, %Y %I:%M %p %Z"` and applies
`.lstrip("0")` to the whole rendered string.  The parser below models
CPython's `fromisoformat` grammar
`YYYY-MM-DD[<sep>HH[:MM[:SS[.fff[fff]]]][±HH:MM[:SS[.ffffff]]]]`; a naive
result (no offset) is treated as UTC, the system time zone of the GitHub
Actions runner that invokes the script. -/

/-- Numeric value of a decimal digit character. -/
def digitVal (c : Char) : Nat := c.toNat - 48

/-- Two decimal digits, as `int(tstr[pos:pos+2])`. -/
def take2d : List Char → Option (Nat × List Char)
  | a :: b :: rest =>
    if a.isDigit && b.isDigit then some (10 * digitVal a + digitVal b, rest)
    else none
  | _ => none

/-- Four decimal digits, as `int(dtstr[0:4])`. -/
def take4d : List Char → Option (Nat × List Char)
  | a :: b :: c :: d :: rest =>
    if a.isDigit && b.isDigit && c.isDigit && d.isDigit then
      some (1000 * digitVal a + 100 * digitVal b + 10 * digitVal c
        + digitVal d, rest)
    else none
  | _ => none

/-- Fractional-second digits: exactly 3 or 6 digits, scaled to
microseconds. -/
def parseFrac (l : List Char) : Option Nat :=
  if l.all Char.isDigit then
    let v := l.foldl (fun acc c => 10 * acc + digitVal c) 0
    if l.length = 3 then some (1000 * v)
    else if l.length = 6 then some v
    else none
  else none

/-- Models CPython's `_parse_hh_mm_ss_ff`:
`HH[:MM[:SS[.fff[fff]]]]`, returning `(hour, minute, second, microsecond)`. -/
def parseHMS (t : List Char) : Option (Nat × Nat × Nat × Nat) :=
  match take2d t with
  | none => none
  | some (h, r1) =>
    match r1 with
    | [] => some (h, 0, 0, 0)
    | ':' :: r2 =>
      match take2d r2 with
      | none => none
      | some (mi, r3) =>
        match r3 with
        | [] => some (h, mi, 0, 0)
        | ':' :: r4 =>
          match take2d r4 with
          | none => none
          | some (s, r5) =>
            match r5 with
            | [] => some (h, mi, s, 0)
            | '.' :: r6 =>
              match parseFrac r6 with
              | some f => some (h, mi, s, f)
              | none => none
            | _ => none
        | _ => none
    | _ => none

/-- Splits the time string at the first `-`, else the first `+` (CPython's
`tz_pos = (tstr.find('-') + 1 or tstr.find('+') + 1)`). -/
def splitTzPart (t : List Char) : List Char × Option (Char × List Char) :=
  match t.findIdx? (· = '-') with
  | some i => (t.take i, some ('-', t.drop (i + 1)))
  | none =>
    match t.findIdx? (· = '+') with
    | some i => (t.take i, some ('+', t.drop (i + 1)))
    | none => (t, none)

/-- Offset string: length must be 5, 8 or 15 (`HH:MM`, `HH:MM:SS`,
`HH:MM:SS.ffffff`); the resulting `timezone` offset must be strictly less
than 24 hours in magnitude.  Result in microseconds east of UTC. -/
def parseTzOffset (sign : Char) (tz : List Char) : Option Int :=
  if tz.length = 5 ∨ tz.length = 8 ∨ tz.length = 15 then
    match parseHMS tz with
    | some (h, mi, s, micro) =>
      let total : Int := (((h * 3600 + mi * 60 + s) * 1000000 + micro : Nat) : Int)
      if total < 86400000000 then
        some (if sign = '-' then -total else total)
      else none
    | none => none
  else none

/-- A parsed `datetime` value; `tzOffset` is in microseconds east of UTC,
`none` for a naive value. -/
structure PyDateTime where
  year : Nat
  month : Nat
  day : Nat
  hour : Nat
  minute : Nat
  second : Nat
  micro : Nat
  tzOffset : Option Int
deriving DecidableEq

/-- Gregorian leap-year test. -/
def isLeap (y : Nat) : Bool := (y % 4 = 0 && y % 100 ≠ 0) || y % 400 = 0

/-- Days in a month of the proleptic Gregorian calendar. -/
def daysInMonth (y m : Nat) : Nat :=
  if m = 2 then (if isLeap y then 29 else 28)
  else if m = 4 ∨ m = 6 ∨ m = 9 ∨ m = 11 then 30 else 31

/-- The `datetime` constructor's range validation. -/
def mkPyDateTime (y m d h mi s micro : Nat) (tz : Option Int) :
    Option PyDateTime :=
  if 1 ≤ y ∧ 1 ≤ m ∧ m ≤ 12 ∧ 1 ≤ d ∧ d ≤ daysInMonth y m ∧
      h ≤ 23 ∧ mi ≤ 59 ∧ s ≤ 59 then
    some ⟨y, m, d, h, mi, s, micro, tz⟩
  else none

/-- Models `datetime.fromisoformat` (CPython ≤ 3.10 grammar): a strict
`YYYY-MM-DD` date, then optionally one arbitrary separator character and a
time with optional UTC offset. -/
def pyFromIsoformat (l : List Char) : Option PyDateTime :=
  match take4d l with
  | some (y, '-' :: r2) =>
    match take2d r2 with
    | some (m, '-' :: r4) =>
      match take2d r4 with
      | some (d, r5) =>
        match r5 with
        | [] => mkPyDateTime y m d 0 0 0 0 none
        | _ :: tstr =>
          match splitTzPart tstr with
          | (timestr, none) =>
            match parseHMS timestr with
            | some (h, mi, s, micro) => mkPyDateTime y m d h mi s micro none
            | none => none
          | (timestr, some (sign, tzstr)) =>
            match parseHMS timestr with
            | some (h, mi, s, micro) =>
              match parseTzOffset sign tzstr with
              | some off => mkPyDateTime y m d h mi s micro (some off)
              | none => none
            | none => none
      | _ => none
    | _ => none
  | _ => none

/-- Days since 1970-01-01 of a proleptic Gregorian civil date
(standard civil-from-days arithmetic; `/` on `Int` is floor division for
the positive divisors used here). -/
def daysFromCivil (y m d : Int) : Int :=
  let y' := if m ≤ 2 then y - 1 else y
  let era := y' / 400
  let yoe := y' - era * 400
  let doy := (153 * (if 2 < m then m - 3 else m + 9) + 2) / 5 + d - 1
  let doe := yoe * 365 + yoe / 4 - yoe / 100 + doy
  era * 146097 + doe - 719468

/-- Civil date `(year, month, day)` of a days-since-1970 count. -/
def civilFromDays (z0 : Int) : Int × Int × Int :=
  let z := z0 + 719468
  let era := z / 146097
  let doe := z - era * 146097
  let yoe := (doe - doe / 1460 + doe / 36524 - doe / 146096) / 365
  let y := yoe + era * 400
  let doy := doe - (365 * yoe + yoe / 4 - yoe / 100)
  let mp := (5 * doy + 2) / 153
  let d := doy - (153 * mp + 2) / 5 + 1
  let m := if mp < 10 then mp + 3 else mp - 9
  (if m ≤ 2 then y + 1 else y, m, d)

/-- Day of week with Sunday = 0 (1970-01-01 was a Thursday). -/
def dow0Sunday (days : Int) : Int := (days + 4) % 7

/-- Day-of-month of the first Sunday of a month. -/
def firstSundayOfMonth (y m : Int) : Int :=
  1 + (7 - dow0Sunday (daysFromCivil y m 1)) % 7

/-- UTC instant of a parsed datetime, in microseconds since the epoch; a
naive value is interpreted in the runner's system time zone, UTC. -/
def utcMicros (dt : PyDateTime) : Int :=
  daysFromCivil dt.year dt.month dt.day * 86400000000 +
    ((dt.hour * 3600 + dt.minute * 60 + dt.second : Nat) : Int) * 1000000 +
    (dt.micro : Int) - dt.tzOffset.getD 0

/-- Models the pytz `US/Central` DST rule in force since 2007 (DST from
2:00 standard time on the second Sunday of March, i.e. 08:00 UTC, to 2:00
daylight time on the first Sunday of November, i.e. 07:00 UTC; earlier
years had different change dates and are not modelled). -/
def usCentralDst (t : Int) : Bool :=
  let days := Int.fdiv t 86400000000
  let y := (civilFromDays days).1
  let startT := (daysFromCivil y 3 (firstSundayOfMonth y 3 + 7) * 86400
    + 8 * 3600) * 1000000
  let stopT := (daysFromCivil y 11 (firstSundayOfMonth y 11) * 86400
    + 7 * 3600) * 1000000
  decide (startT ≤ t ∧ t < stopT)

/-- UTC offset in seconds of `US/Central` at a UTC instant. -/
def centralOffsetSecs (t : Int) : Int :=
  if usCentralDst t then -18000 else -21600

/-- The C-locale English month abbreviations, in order. -/
def monthNames : List String :=
  ["Jan", "Feb", "Mar", "Apr", "May", "Jun",
   "Jul", "Aug", "Sep", "Oct", "Nov", "Dec"]

/-- `%b`: English month abbreviation (C locale); months are always 1–12
here, the out-of-range default is unreachable. -/
def monthAbbrev (m : Int) : String :=
  if 1 ≤ m ∧ m ≤ 12 then monthNames.getD (m - 1).toNat "" else ""

/-- Zero-pad to two digits (`%d`, `%I`, `%M`). -/
def pad2 (n : Int) : String :=
  if 0 ≤ n ∧ n < 10 then "0" ++ pyIntStr n else pyIntStr n

/-- The field layout of `"%b %d, %Y %I:%M %p %Z"`. -/
def renderParts (mo d y h12 mi : Int) (ampm tzn : String) : String :=
  monthAbbrev mo ++ " " ++ pad2 d ++ ", " ++ pyIntStr y ++ " " ++
    pad2 h12 ++ ":" ++ pad2 mi ++ " " ++ ampm ++ " " ++ tzn

/-- `local.strftime("%b %d, %Y %I:%M %p %Z")` after `astimezone` to
US/Central, of a UTC instant in microseconds. -/
def renderCentral (t : Int) : String :=
  let off := centralOffsetSecs t
  let lt := t + off * 1000000
  let days := Int.fdiv lt 86400000000
  let rem := Int.emod lt 86400000000
  let c := civilFromDays days
  let secs := rem / 1000000
  let h := secs / 3600
  let mi := (secs % 3600) / 60
  let h12 := if h % 12 = 0 then 12 else h % 12
  let ampm := if h < 12 then "AM" else "PM"
  let tzn := if off = -18000 then "CDT" else "CST"
  renderParts c.2.1 c.2.2 c.1 h12 mi ampm tzn

/-- Python `s.lstrip("0")`: drop every leading `'0'` character. -/
def lstrip0 (s : String) : String := String.mk (s.data.dropWhile (· = '0'))

/-- `format_time` from `check_games.py` (lines 155–163). -/
def format_time (iso_time : String) : String :=
  match pyFromIsoformat
      (replaceList ['Z'] ['+', '0', '0', ':', '0', '0'] iso_time.data) with
  | none => iso_time
  | some dt => lstrip0 (renderCentral (utcMicros dt))

example : format_time "2025-01-06T01:00Z" = "Jan 05, 2025 07:00 PM CST" := by
  decide
example : format_time "2025-07-05T00:30Z" = "Jul 04, 2025 07:30 PM CDT" := by
  decide
example : format_time "not a date" = "not a date" := by decide

/-! ### Events, message formatting and the per-event pipeline of `main` -/

/-- `venue.get("address", {})`. -/
structure Address where
  city : Option String
  state : Option String
deriving DecidableEq, Inhabited

/-- `comp.get("venue", {}) or {}` (a null or missing venue is the all-`none`
value). -/
structure Venue where
  fullName : Option String
  name : Option String
  address : Option Address
deriving DecidableEq, Inhabited

/-- One entry of `competition["broadcasts"]`. -/
structure Broadcast where
  names : List String
deriving DecidableEq, Inhabited

/-- `event["competitions"][0]` as consumed by `main` (missing keys read
with defaults become `[]` / `False` / `none`). -/
structure Competition where
  competitors : List Competitor
  neutralSite : Bool
  venue : Option Venue
  startDate : Option String
  broadcasts : List Broadcast
deriving DecidableEq, Inhabited

/-- A fetched scoreboard event as consumed by `main`. -/
structure Event where
  id : Option PyJson
  competitions : Option (List Competition)
deriving DecidableEq

/-- `get_tv_channel` from `check_games.py` (lines 165–173). -/
def get_tv_channel (comp : Competition) : String :=
  if comp.broadcasts = [] then "TBD"
  else
    let names := comp.broadcasts.foldl (fun acc b => acc ++ b.names) []
    if names ≠ [] then String.intercalate ", " names else "TBD"

/-- Python dict lookup on an insertion-ordered association list: the last
binding of a key wins (later JSON duplicates overwrite earlier ones). -/
def dictGet (councils : Registry) (k : String) : Option CouncilInfo :=
  (councils.reverse.find? (fun e => e.1 == k)).map (fun e => e.2)

/-- `role_id_map.get(num)`. -/
def roleMapGet (m : List (String × String)) (k : String) : Option String :=
  (m.reverse.find? (fun e => e.1 == k)).map (fun e => e.2)

/-- f-string interpolation of a value that may be `None`. -/
def pyFmtOptStr (o : Option String) : String :=
  match o with
  | none => "None"
  | some s => s

/-- `f"Council {num} ({councils[num]['official_name']})"`; `none` models the
`KeyError` raised when `num` is not a key of the registry (the registry is
keyed by canonical id, not council number) or `official_name` is absent. -/
def councilMentionText (councils : Registry) (num : String) : Option String :=
  match dictGet councils num with
  | none => none
  | some info =>
    match info.official_name with
    | none => none
    | some nm => some ("Council " ++ num ++ " (" ++ nm ++ ")")

/-- `build_role_mentions` from `check_games.py` (lines 175–197); `none`
models an uncaught `KeyError`. -/
def build_role_mentions (home_num away_num : String) (councils : Registry)
    (role_id_map : List (String × String)) : Option String :=
  if role_id_map ≠ [] then
    let hm : Option String :=
      match roleMapGet role_id_map home_num with
      | some i => if i ≠ "" then some ("<@&" ++ i ++ ">")
                  else councilMentionText councils home_num
      | none => councilMentionText councils home_num
    let am : Option String :=
      match roleMapGet role_id_map away_num with
      | some i => if i ≠ "" then some ("<@&" ++ i ++ ">")
                  else councilMentionText councils away_num
      | none => councilMentionText councils away_num
    match hm, am with
    | some a, some b => some (a ++ " " ++ b)
    | _, _ => none
  else
    match councilMentionText councils home_num,
        councilMentionText councils away_num with
    | some a, some b => some (a ++ " " ++ b)
    | _, _ => none

/-- `home_cnum = str(home_info.get("council"))` (missing key renders as
`"None"`). -/
def councilNumStr (info : CouncilInfo) : String :=
  match info.council with
  | some n => pyIntStr n
  | none => "None"

/-- The message block built for one matched event in `main`
(lines 276–313); `none` models an uncaught `KeyError`.  The glyph
prefixes are the source file's literal characters. -/
def buildMessage (councils : Registry) (role_id_map : List (String × String))
    (sport : String) (comp : Competition) (home_cid away_cid : String) :
    Option String :=
  match dictGet councils home_cid, dictGet councils away_cid with
  | some home_info, some away_info =>
    let home_cnum := councilNumStr home_info
    let away_cnum := councilNumStr away_info
    let venue := comp.venue.getD ⟨none, none, none⟩
    let stadium :=
      if venue.fullName.getD "" ≠ "" then venue.fullName.getD ""
      else if venue.name.getD "" ≠ "" then venue.name.getD ""
      else "TBD"
    let city := (venue.address.getD ⟨none, none⟩).city.getD ""
    let state := (venue.address.getD ⟨none, none⟩).state.getD ""
    let location :=
      if city ≠ "" then stadium ++ " (" ++ city ++ ", " ++ state ++ ")"
      else stadium
    let site_label :=
      if comp.neutralSite then "üèüÔ∏è Neutral Site"
      else "üè† " ++ pyFmtOptStr home_info.official_name ++ " home game"
    let start_str :=
      match comp.startDate with
      | some s => if s ≠ "" then format_time s else "TBD"
      | none => "TBD"
    let tv := get_tv_channel comp
    match build_role_mentions home_cnum away_cnum councils role_id_map with
    | none => none
    | some role_mentions =>
      some (String.intercalate "\n"
        [ "‚öîÔ∏è **COLLEGE COUNCIL MATCHUP**",
          "",
          sport,
          "üïñ " ++ start_str,
          "üì∫ " ++ tv,
          "üìç " ++ location,
          site_label,
          "",
          "üéì " ++ pyFmtOptStr home_info.official_name
            ++ " (Council " ++ home_cnum ++ ")",
          "vs",
          "üéì " ++ pyFmtOptStr away_info.official_name
            ++ " (Council " ++ away_cnum ++ ")",
          "",
          role_mentions ])
  | _, _ => none

/-- What the per-event body of `main`'s fetch loop does with one event. -/
inductive EventOutcome where
  | crash
  | skipped
  | matched (game_id msg : String)
deriving DecidableEq

/-- `event.get("competitions", [{}])[0]`: a missing key indexes the default
`[{}]` (the all-default competition); an explicitly empty list raises
`IndexError` (`none` = crash). -/
def compOf (e : Event) : Option Competition :=
  match e.competitions with
  | none => some default
  | some [] => none
  | some (c :: _) => some c

/-- The home/away selection of `main` (lines 255–266): the last competitor
tagged `"home"` / `"away"`; if either tag is absent, positional fallback to
the first and second competitor.  `none` when fewer than two competitors
(the event is skipped before this point). -/
def chosenPair (competitors : List Competitor) :
    Option (Competitor × Competitor) :=
  if competitors.length < 2 then none
  else
    match competitors.reverse.find? (fun t => t.homeAway == some "home"),
        competitors.reverse.find? (fun t => t.homeAway == some "away") with
    | some h, some a => some (h, a)
    | _, _ => some (competitors.headD default, (competitors.drop 1).headD default)

/-- The body of `main`'s per-event loop (lines 245–314): dedup/falsy-id
guard, competitor-count guard, home/away selection, resolution of both
participants, then message construction. -/
def processEvent (posted : Finset String) (alias_lookup espn_id_lookup : Dict)
    (councils : Registry) (role_id_map : List (String × String))
    (sport : String) (e : Event) : EventOutcome :=
  let game_id := pyStrOpt e.id
  if game_id = "" ∨ game_id ∈ posted then .skipped
  else
    match compOf e with
    | none => .crash
    | some comp =>
      if comp.competitors.length < 2 then .skipped
      else
        match chosenPair comp.competitors with
        | none => .skipped
        | some (home, away) =>
          match resolve_team home alias_lookup espn_id_lookup,
              resolve_team away alias_lookup espn_id_lookup with
          | some home_cid, some away_cid =>
            match buildMessage councils role_id_map sport comp
                home_cid away_cid with
            | some msg => .matched game_id msg
            | none => .crash
          | _, _ => .skipped

/-! ### Posting loop and dedup store -/

/-- The posting loop of `main` (lines 321–328): each entry of `to_post` is
attempted; on success (`ok`) the id is added to the in-memory posted set,
on failure the loop logs and continues. -/
def postLoop (posted : Finset String) (to_post : List (String × String))
    (ok : String → String → Bool) : Finset String :=
  to_post.foldl (fun acc p => if ok p.1 p.2 then insert p.1 acc else acc)
    posted

/-- The body written by `write_posted_set_to_issue` (lines 145–153):
`json.dumps(sorted(list(posted_set)), indent=2)`, as its JSON value — a
sorted array of the id strings. -/
def write_posted_body (posted : Finset String) : PyJson :=
  .arr ((posted.sort (· ≤ ·)).map .str)

/-- A JSON-derived value is hashable in Python iff it is not a list (or
object); `set(data)` raises `TypeError` on an unhashable element. -/
def pyHashable : PyJson → Bool
  | .arr _ => false
  | _ => true

/-- Python value equality conflates `True` with `1` and `False` with `0`
(equal hash and `==`), so a Python set holds one element per such class;
set elements are modelled by this canonical form. -/
def pyCanon : PyJson → PyJson
  | .bool b => .num (if b then 1 else 0)
  | j => j

/-- The parsing core of `read_posted_set_from_issue` (lines 130–143):
the body parsed as JSON (`none` = `json.loads` raised), an empty set for
non-array content, otherwise `set(data)` — which raises `TypeError` inside
the same `try` when some element is unhashable, so such arrays also read
as the empty set; elements are kept up to Python value equality. -/
def read_posted_set (body : Option PyJson) : Finset PyJson :=
  match body with
  | some (.arr l) =>
    if l.all pyHashable then (l.map pyCanon).toFinset else ∅
  | _ => ∅

/-! ## Theorems -/

/-- Unfolding equation of `read_posted_set` on an array body. -/
theorem read_posted_set_arr (l : List PyJson) :
    read_posted_set (some (.arr l)) =
      if l.all pyHashable then (l.map pyCanon).toFinset else ∅ := rfl

/-- Membership in the posting loop's final set: an id is present iff it
was already posted or some entry for it posted successfully. -/
theorem mem_postLoop (to_post : List (String × String)) (posted : Finset String)
    (ok : String → String → Bool) (x : String) :
    x ∈ postLoop posted to_post ok ↔
      x ∈ posted ∨ ∃ m, (x, m) ∈ to_post ∧ ok x m = true := by
  induction to_post generalizing posted with
  | nil => simp [postLoop]
  | cons p l ih =>
    obtain ⟨pg, pm⟩ := p
    show x ∈ postLoop (if ok pg pm then insert pg posted else posted) l ok ↔ _
    rw [ih]
    by_cases h : ok pg pm = true
    · simp only [if_pos h, Finset.mem_insert, List.mem_cons, Prod.mk.injEq]
      constructor
      · rintro (⟨rfl | hx⟩ | ⟨m, hm, hok⟩)
        · exact Or.inr ⟨pm, Or.inl ⟨rfl, rfl⟩, h⟩
        · exact Or.inl hx
        · exact Or.inr ⟨m, Or.inr hm, hok⟩
      · rintro (hx | ⟨m, hm | hm, hok⟩)
        · exact Or.inl (Or.inr hx)
        · exact Or.inl (Or.inl hm.1)
        · exact Or.inr ⟨m, hm, hok⟩
    · simp only [if_neg h, List.mem_cons, Prod.mk.injEq]
      constructor
      · rintro (hx | ⟨m, hm, hok⟩)
        · exact Or.inl hx
        · exact Or.inr ⟨m, Or.inr hm, hok⟩
      · rintro (hx | ⟨m, hm | hm, hok⟩)
        · exact Or.inl hx
        · exact absurd hok (by rw [hm.1, hm.2]; exact h)
        · exact Or.inr ⟨m, hm, hok⟩

/-- Round trip through the persisted body: writing a set and parsing it
back yields the image of the set under `PyJson.str`. -/
theorem read_write_roundtrip (s : Finset String) :
    read_posted_set (some (write_posted_body s)) = s.image PyJson.str := by
  unfold write_posted_body
  rw [read_posted_set_arr]
  rw [if_pos (by
    rw [List.all_eq_true]
    intro j hj
    rw [List.mem_map] at hj
    obtain ⟨a, _, rfl⟩ := hj
    rfl)]
  ext j
  simp [List.mem_toFinset, List.mem_map, Finset.mem_sort, Finset.mem_image,
    pyCanon]

/-- C1: if every post of an event's id fails, that id is not added to the
in-memory posted set and does not appear in the persisted body, while every
entry of the batch whose post succeeds has its id in the final set. -/
theorem C1_failed_post_not_persisted (posted : Finset String)
    (to_post : List (String × String)) (ok : String → String → Bool)
    (x : String) (hfail : ∀ m, (x, m) ∈ to_post → ok x m = false)
    (hnew : x ∉ posted) :
    x ∉ postLoop posted to_post ok ∧
      (∀ y m, (y, m) ∈ to_post → ok y m = true →
        y ∈ postLoop posted to_post ok) ∧
      PyJson.str x ∉
        read_posted_set (some (write_posted_body (postLoop posted to_post ok))) := by
  have hmem : x ∉ postLoop posted to_post ok := by
    rw [mem_postLoop]
    rintro (hx | ⟨m, hm, hok⟩)
    · exact hnew hx
    · rw [hfail m hm] at hok
      cases hok
  refine ⟨hmem, fun y m hm hok => ?_, ?_⟩
  · rw [mem_postLoop]
    exact Or.inr ⟨m, hm, hok⟩
  · rw [read_write_roundtrip]
    intro hx
    obtain ⟨z, hz, hzx⟩ := Finset.mem_image.mp hx
    cases hzx
    exact hmem hz

/-- C1 witness: a concrete batch where the post of `"b"` fails and the
others succeed. -/
theorem C1_failed_post_not_persisted_witness :
    "b" ∉ postLoop ∅ [("a", "m1"), ("b", "m2"), ("c", "m3")]
        (fun g _ => g != "b") ∧
      (∀ y m, (y, m) ∈ [("a", "m1"), ("b", "m2"), ("c", "m3")] →
        (fun g _ => g != "b") y m = true →
        y ∈ postLoop ∅ [("a", "m1"), ("b", "m2"), ("c", "m3")]
          (fun g _ => g != "b")) ∧
      PyJson.str "b" ∉
        read_posted_set (some (write_posted_body
          (postLoop ∅ [("a", "m1"), ("b", "m2"), ("c", "m3")]
            (fun g _ => g != "b")))) :=
  C1_failed_post_not_persisted ∅ _ _ "b"
    (by
      intro m hm
      simp only [List.mem_cons, List.not_mem_nil, or_false,
        Prod.mk.injEq] at hm
      rcases hm with ⟨h1, h2⟩ | ⟨h1, h2⟩ | ⟨h1, h2⟩
      · exact absurd h1 (by decide)
      · subst h2; decide
      · exact absurd h1 (by decide))
    (by decide)

/-- C3: an event whose id is already in the dedup set is skipped, whatever
the lookup tables, registry, role map and sport are — resolution is never
consulted. -/
theorem C3_posted_event_skipped (posted : Finset String)
    (alias_lookup espn_id_lookup : Dict) (councils : Registry)
    (role_id_map : List (String × String)) (sport : String) (e : Event)
    (h : pyStrOpt e.id ∈ posted) :
    processEvent posted alias_lookup espn_id_lookup councils role_id_map
      sport e = .skipped := by
  simp [processEvent, h]

/-- C3 witness: a concrete already-posted event. -/
theorem C3_posted_event_skipped_witness :
    processEvent {"401"} demp demp [] [] "Sport"
      ⟨some (.str "401"), none⟩ = .skipped :=
  C3_posted_event_skipped {"401"} demp demp [] [] "Sport"
    ⟨some (.str "401"), none⟩ (by decide)

/-- C8: writing a dedup set as a sorted JSON array and reading it back
yields exactly the same set of id strings, for every finite set,
independent of element order. -/
theorem C8_write_read_roundtrip (s : Finset String) :
    read_posted_set (some (write_posted_body s)) = s.image PyJson.str :=
  read_write_roundtrip s

/-- C9 counterexample: a JSON array containing an unhashable element
(a nested array) does not read as the set of its elements — `set(data)`
raises `TypeError` inside the `try`, and the `except` returns the empty
set. -/
theorem C9_counterexample :
    read_posted_set (some (.arr [.arr [.num 1], .str "a"])) = ∅ ∧
      read_posted_set (some (.arr [.arr [.num 1], .str "a"])) ≠
        ([PyJson.arr [.num 1], PyJson.str "a"] : List PyJson).toFinset := by
  decide

/-- C9 amended: reading the persisted body never fails the run: an
unparsable body or a non-array value reads as the empty set; an array with
an unhashable element (nested array/object) raises `TypeError` inside the
`try` and also reads as the empty set; an array of hashable elements reads
as the set of its elements up to Python value equality. -/
theorem C9_amended (body : Option PyJson) :
    (body = none → read_posted_set body = ∅) ∧
      (∀ j, body = some j → (∀ l, j ≠ PyJson.arr l) →
        read_posted_set body = ∅) ∧
      (∀ l, body = some (.arr l) → ¬l.all pyHashable = true →
        read_posted_set body = ∅) ∧
      (∀ l, body = some (.arr l) → l.all pyHashable = true →
        read_posted_set body = (l.map pyCanon).toFinset) := by
  refine ⟨fun h => by rw [h]; rfl, fun j hj hna => ?_,
    fun l hl hunh => ?_, fun l hl hh => ?_⟩
  · rw [hj]
    cases j with
    | arr l => exact absurd rfl (hna l)
    | null => rfl
    | bool b => rfl
    | num n => rfl
    | str s => rfl
  · rw [hl, read_posted_set_arr, if_neg hunh]
  · rw [hl, read_posted_set_arr, if_pos hh]

/-- C9 amended witness: concrete bodies of each kind, including an
unhashable-element array and a `True`/`1` conflation. -/
theorem C9_amended_witness :
    read_posted_set none = ∅ ∧
      read_posted_set (some (.num 7)) = ∅ ∧
      read_posted_set (some (.arr [.arr [.num 1], .str "a"])) = ∅ ∧
      read_posted_set (some (.arr [.str "a", .bool true, .num 7])) =
        ({.str "a", .num 1, .num 7} : Finset PyJson) :=
  ⟨(C9_amended none).1 rfl,
    (C9_amended (some (.num 7))).2.1 (.num 7) rfl (by intro l h; cases h),
    (C9_amended (some (.arr [.arr [.num 1], .str "a"]))).2.2.1
      [.arr [.num 1], .str "a"] rfl (by decide),
    by
      have := (C9_amended (some (.arr [.str "a", .bool true, .num 7]))).2.2.2
        [.str "a", .bool true, .num 7] rfl (by decide)
      rw [this]
      decide⟩

/-- C2: if at least one of the two chosen participants fails to resolve to
a canonical id, the event produces no match — no outbound message. -/
theorem C2_unresolved_no_match (posted : Finset String)
    (alias_lookup espn_id_lookup : Dict) (councils : Registry)
    (role_id_map : List (String × String)) (sport : String) (e : Event)
    (comp : Competition) (home away : Competitor)
    (hcomp : compOf e = some comp)
    (hpair : chosenPair comp.competitors = some (home, away))
    (hunres : resolve_team home alias_lookup espn_id_lookup = none ∨
      resolve_team away alias_lookup espn_id_lookup = none) :
    ∀ gid msg, processEvent posted alias_lookup espn_id_lookup councils
      role_id_map sport e ≠ .matched gid msg := by
  intro gid msg hmatch
  unfold processEvent at hmatch
  simp only [hcomp, hpair] at hmatch
  rcases hunres with h | h
  · simp [h] at hmatch
  · cases h2 : resolve_team home alias_lookup espn_id_lookup with
    | none => simp [h2] at hmatch
    | some hc => simp [h2, h] at hmatch

/-- C2 witness: a concrete two-competitor event whose participants resolve
to nothing under empty lookup tables. -/
theorem C2_unresolved_no_match_witness :
    processEvent ∅ demp demp [] [] "Sport"
      ⟨some (.str "g"),
        some [⟨[⟨some "home", default⟩, ⟨some "away", default⟩],
          false, none, none, []⟩]⟩ ≠ .matched "g" "msg" :=
  C2_unresolved_no_match ∅ demp demp [] [] "Sport"
    ⟨some (.str "g"),
      some [⟨[⟨some "home", default⟩, ⟨some "away", default⟩],
        false, none, none, []⟩]⟩
    ⟨[⟨some "home", default⟩, ⟨some "away", default⟩], false, none, none, []⟩
    ⟨some "home", default⟩ ⟨some "away", default⟩
    (by decide) (by decide) (Or.inl (by decide)) "g" "msg"

/-- C4: `resolve_team` tries the claimed strategies in the claimed fixed
order and returns the first success — it coincides with the
strategy-list-in-order reading of the spec. -/
theorem C4_resolution_order (tobj : Competitor)
    (alias_lookup espn_id_lookup : Dict) :
    resolve_team tobj alias_lookup espn_id_lookup =
      resolveTeamSpec tobj alias_lookup espn_id_lookup := by
  have horElse : ∀ (o1 o2 : Option String) (l : List (Option String)),
      ((o1 <|> o2) <|> l.findSome? id) = (o1 :: o2 :: l).findSome? id := by
    intro o1 o2 l
    cases o1 <;> cases o2 <;> rfl
  unfold resolve_team resolveTeamSpec
  simp only [List.cons_append, List.nil_append]
  rw [← horElse, List.findSome?_map, Function.id_comp]

/-- C5 counterexample: two registry entries registering the same alias
`"Foo U"`; the built alias table maps it to the canonical id of the
second-registered entry `"B"`, not the first-registered `"A"`. -/
theorem C5_counterexample :
    (build_lookup
        [("A", ⟨some "Foo University", none, some 100, [["Foo U"]], []⟩),
         ("B", ⟨some "Bar Tech", none, some 200, [["Foo U"]], []⟩)]
      ).alias_lookup (normalize "Foo U") = some "B" ∧
    (build_lookup
        [("A", ⟨some "Foo University", none, some 100, [["Foo U"]], []⟩),
         ("B", ⟨some "Bar Tech", none, some 200, [["Foo U"]], []⟩)]
      ).alias_lookup (normalize "Foo U") ≠ some "A" := by
  decide

/-- Folding `dinsert` with a fixed value over a list of keys: a key in the
list maps to that value, any other key keeps its old binding. -/
theorem foldl_dinsert_apply (keys : List String) (d : Dict) (cid k : String) :
    (keys.foldl (fun a al => dinsert a al cid) d) k =
      if k ∈ keys then some cid else d k := by
  induction keys generalizing d with
  | nil => simp
  | cons a ks ih =>
    rw [List.foldl_cons, ih]
    by_cases hk : k ∈ ks
    · simp [hk]
    · by_cases hka : k = a <;> simp [hk, hka, dinsert]

/-- The nested alias-group fold of `registerAliases`: a key registered by
some group maps to the entry's canonical id, other keys keep their old
binding. -/
theorem groupFold_apply (groups : List (List String)) (d : Dict)
    (cid k : String) :
    (groups.foldl
      (fun a grp => grp.foldl (fun a al => dinsert a (normalize al) cid) a)
        d) k =
      if k ∈ groups.flatten.map normalize then some cid else d k := by
  induction groups generalizing d with
  | nil => simp
  | cons g gs ih =>
    rw [List.foldl_cons, ih]
    have hg : (g.foldl (fun a al => dinsert a (normalize al) cid) d) k =
        if k ∈ g.map normalize then some cid else d k := by
      rw [← List.foldl_map normalize (fun a al => dinsert a al cid) g d]
      exact foldl_dinsert_apply (g.map normalize) d cid k
    rw [hg]
    by_cases hA : k ∈ gs.flatten.map normalize <;>
      by_cases hB : k ∈ g.map normalize <;>
      simp [hA, hB, List.flatten_cons, List.map_append]

/-- `registerAliases` maps every key the entry registers to the entry's
canonical id. -/
theorem registerAliases_mem (d : Dict) (cid : String) (info : CouncilInfo)
    (k : String) (hk : k ∈ entryAliasKeys info) :
    registerAliases d cid info k = some cid := by
  unfold entryAliasKeys at hk
  rw [List.mem_append] at hk
  unfold registerAliases
  have hd : ∀ (f : Dict) key, k ≠ key → dinsert f key cid k = f k := by
    intro f key h
    simp [dinsert, h]
  by_cases hoff : officialVal info ≠ ""
  · rw [if_pos hoff]
    by_cases hkoff : k = normalize (officialVal info)
    · simp [dinsert, hkoff]
    · have hkfl : k ∈ info.aliases.flatten.map normalize := by
        rcases hk with h | h
        · exact h
        · rw [if_pos hoff] at h
          simp only [List.mem_singleton] at h
          exact absurd h hkoff
      rw [hd _ _ hkoff, groupFold_apply, if_pos hkfl]
  · rw [if_neg hoff]
    have hkfl : k ∈ info.aliases.flatten.map normalize := by
      rcases hk with h | h
      · exact h
      · rw [if_neg hoff] at h
        cases h
    rw [groupFold_apply, if_pos hkfl]

/-- C5 amended: when several registry entries register the same normalized
alias, the built alias table maps it to the canonical id of the
last-registered entry. -/
theorem C5_amended_last_registered_wins (cs : Registry) (cid : String)
    (info : CouncilInfo) (k : String) (hk : k ∈ entryAliasKeys info) :
    (build_lookup (cs ++ [(cid, info)])).alias_lookup k = some cid := by
  unfold build_lookup
  rw [List.foldl_append]
  exact registerAliases_mem _ cid info k hk

/-- C5 amended witness: the concrete two-entry conflict resolves to the
second (last-registered) entry. -/
theorem C5_amended_last_registered_wins_witness :
    (build_lookup
        ([("A", ⟨some "Foo University", none, some 100, [["Foo U"]], []⟩)] ++
         [("B", ⟨some "Bar Tech", none, some 200, [["Foo U"]], []⟩)])
      ).alias_lookup "foo u" = some "B" :=
  C5_amended_last_registered_wins
    [("A", ⟨some "Foo University", none, some 100, [["Foo U"]], []⟩)] "B"
    ⟨some "Bar Tech", none, some 200, [["Foo U"]], []⟩ "foo u" (by decide)

/-! C10 support: non-emptiness of rendered Python values. -/

/-- The digit-accumulator loop only grows its accumulator, strictly when
it has fuel. -/
theorem natStrAux_length (fuel n : Nat) (acc : List Char) :
    acc.length ≤ (natStrAux fuel n acc).length ∧
      (fuel ≠ 0 → acc.length < (natStrAux fuel n acc).length) := by
  induction fuel generalizing n acc with
  | zero => exact ⟨le_refl _, fun h => absurd rfl h⟩
  | succ f ih =>
    simp only [natStrAux]
    split
    · simp
    · have h := ih (n / 10) (Char.ofNat (48 + n % 10) :: acc)
      have hstep : acc.length < (Char.ofNat (48 + n % 10) :: acc).length := by
        simp
      exact ⟨le_of_lt (lt_of_lt_of_le hstep h.1),
        fun _ => lt_of_lt_of_le hstep h.1⟩

/-- Decimal rendering of a natural number is never empty. -/
theorem natStr_ne_empty (n : Nat) : natStr n ≠ "" := by
  intro h
  have hd := congrArg String.data h
  have hlen := (natStrAux_length (n + 1) n []).2 (by omega)
  rw [show (natStr n).data = natStrAux (n + 1) n [] from rfl] at hd
  rw [show ("" : String).data = [] from rfl] at hd
  rw [hd] at hlen
  simp at hlen

/-- `str(i)` of an integer is never empty. -/
theorem pyIntStr_ne_empty (i : Int) : pyIntStr i ≠ "" := by
  unfold pyIntStr
  split
  · intro h
    have hd := congrArg String.data h
    rw [String.data_append] at hd
    cases hd
  · exact natStr_ne_empty _

/-- `str` of a JSON value is empty only for the empty string itself. -/
theorem pyStrJson_ne_empty (j : PyJson) (hj : j ≠ .str "") :
    pyStrJson j ≠ "" := by
  cases j with
  | null => decide
  | bool b => cases b <;> decide
  | num n => exact pyIntStr_ne_empty n
  | str s =>
    have hs : s ≠ "" := fun h => hj (by rw [h])
    exact hs
  | arr l =>
    show ("[" ++ pyReprJsonList l ++ "]") ≠ ""
    intro h
    have hd := congrArg String.data h
    rw [String.data_append, String.data_append] at hd
    cases hd

/-- C10 counterexample: an event whose id field is the empty string has an
empty computed game id and is skipped by the falsy-id guard (the identical
event with a non-empty id is matched), so the guard is reachable and the
computed id is not always non-empty. -/
theorem C10_counterexample :
    pyStrOpt (some (.str "")) = "" ∧
      processEvent ∅
        (build_lookup
          [("100", ⟨some "Foo U", none, some 100, [["Foo U"]], []⟩),
           ("200", ⟨some "Bar Tech", none, some 200, [["Bar Tech"]], []⟩)]
          ).alias_lookup demp
        [("100", ⟨some "Foo U", none, some 100, [["Foo U"]], []⟩),
         ("200", ⟨some "Bar Tech", none, some 200, [["Bar Tech"]], []⟩)]
        [] "S"
        ⟨some (.str ""),
          some [⟨[⟨some "home", ⟨none, none, some "Foo U", none, none, none⟩⟩,
                  ⟨some "away", ⟨none, none, some "Bar Tech", none, none, none⟩⟩],
            false, none, none, []⟩]⟩ = .skipped ∧
      (∃ msg, processEvent ∅
        (build_lookup
          [("100", ⟨some "Foo U", none, some 100, [["Foo U"]], []⟩),
           ("200", ⟨some "Bar Tech", none, some 200, [["Bar Tech"]], []⟩)]
          ).alias_lookup demp
        [("100", ⟨some "Foo U", none, some 100, [["Foo U"]], []⟩),
         ("200", ⟨some "Bar Tech", none, some 200, [["Bar Tech"]], []⟩)]
        [] "S"
        ⟨some (.str "g"),
          some [⟨[⟨some "home", ⟨none, none, some "Foo U", none, none, none⟩⟩,
                  ⟨some "away", ⟨none, none, some "Bar Tech", none, none, none⟩⟩],
            false, none, none, []⟩]⟩ = .matched "g" msg) :=
  ⟨rfl, by decide, ⟨_, rfl⟩⟩

/-- C10 amended: the computed game id is empty exactly when the id field is
the JSON empty string (so the falsy-id guard is reachable only then); a
missing id renders as `"None"` and the event is processed exactly as if its
id were the string `"None"`. -/
theorem C10_amended (posted : Finset String)
    (alias_lookup espn_id_lookup : Dict) (councils : Registry)
    (role_id_map : List (String × String)) (sport : String) (e : Event) :
    (pyStrOpt e.id = "" ↔ e.id = some (.str "")) ∧
      (e.id = none →
        pyStrOpt e.id = "None" ∧
        processEvent posted alias_lookup espn_id_lookup councils role_id_map
            sport e =
          processEvent posted alias_lookup espn_id_lookup councils role_id_map
            sport ⟨some (.str "None"), e.competitions⟩) := by
  constructor
  · constructor
    · intro h
      cases hid : e.id with
      | none =>
        rw [hid] at h
        exact absurd h (by decide)
      | some j =>
        rw [hid] at h
        cases j with
        | str s =>
          have hs : s = "" := h
          rw [hs]
        | null => exact absurd h (by decide)
        | bool b => cases b <;> exact absurd h (by decide)
        | num n => exact absurd h (pyIntStr_ne_empty n)
        | arr l => exact absurd h (pyStrJson_ne_empty (.arr l) nofun)
    · intro h
      rw [h]
      rfl
  · intro h
    refine ⟨by rw [h]; rfl, ?_⟩
    obtain ⟨id, comps⟩ := e
    rw [show (⟨id, comps⟩ : Event).id = id from rfl] at h
    subst h
    rfl

/-- C10 amended witness: a concrete id-less event. -/
theorem C10_amended_witness :
    pyStrOpt (⟨none, none⟩ : Event).id = "None" ∧
      processEvent ∅ demp demp [] [] "S" (⟨none, none⟩ : Event) =
        processEvent ∅ demp demp [] [] "S"
          ⟨some (.str "None"), (⟨none, none⟩ : Event).competitions⟩ :=
  (C10_amended ∅ demp demp [] [] "S" ⟨none, none⟩).2 rfl

/-! C6 support: the leading-zero strip of `format_time` is a no-op. -/

/-- A month abbreviation never starts with `'0'`. -/
theorem monthAbbrev_head_ne_zero (m : Int) :
    (monthAbbrev m).data.head? ≠ some '0' := by
  unfold monthAbbrev
  split
  · rename_i h
    obtain ⟨h1, h2⟩ := h
    interval_cases m <;> decide
  · decide

/-- `dropWhile` is the identity when the head (if any) fails the
predicate. -/
theorem dropWhile_eq_self_of_head (p : Char → Bool) (l : List Char)
    (h : ∀ c, l.head? = some c → p c = false) : l.dropWhile p = l := by
  cases l with
  | nil => rfl
  | cons a l => simp [List.dropWhile_cons, h a rfl]

/-- The rendered timestamp starts with the month abbreviation (or, for the
out-of-range default, the following space) — never with `'0'`. -/
theorem renderParts_head_ne_zero (mo d y h12 mi : Int) (ampm tzn : String) :
    (renderParts mo d y h12 mi ampm tzn).data.head? ≠ some '0' := by
  unfold renderParts
  simp only [String.data_append, List.head?_append]
  cases hA : (monthAbbrev mo).data.head? with
  | some c =>
    have hm := monthAbbrev_head_ne_zero mo
    rw [hA] at hm
    simpa [Option.or] using hm
  | none => simp [Option.or]

/-- `lstrip("0")` does nothing to the rendered timestamp: the leading
character is never `'0'`. -/
theorem lstrip0_renderCentral (t : Int) :
    lstrip0 (renderCentral t) = renderCentral t := by
  have hhead : (renderCentral t).data.head? ≠ some '0' := by
    unfold renderCentral
    exact renderParts_head_ne_zero _ _ _ _ _ _ _
  have hdrop := dropWhile_eq_self_of_head (fun c => decide (c = '0'))
    (renderCentral t).data (by
      intro c hc
      simp only [decide_eq_false_iff_not]
      intro hc0
      rw [hc0] at hc
      exact hhead hc)
  unfold lstrip0
  rw [hdrop]

/-- C6 counterexample: the rendered output keeps the zero-padded day and
hour because `.lstrip("0")` is applied to the whole string, which starts
with the month abbreviation; the claimed hour-stripped rendering is not
produced. -/
theorem C6_counterexample :
    format_time "2025-01-06T01:00Z" = "Jan 05, 2025 07:00 PM CST" ∧
      format_time "2025-01-06T01:00Z" ≠ "Jan 5, 2025 7:00 PM CST" := by
  decide

/-- The rendered timestamp always has the `renderParts` layout. -/
theorem renderCentral_shape (t : Int) :
    ∃ mo d y h12 mi ampm tzn,
      renderCentral t = renderParts mo d y h12 mi ampm tzn := by
  unfold renderCentral
  exact ⟨_, _, _, _, _, _, _, rfl⟩

/-- C6 amended: an input that fails to parse is returned unchanged; an
input that parses renders as the time-zone-converted timestamp in the
`"%b %d, %Y %I:%M %p %Z"` layout with zero-padded day, hour and minute —
the leading-zero strip removes nothing. -/
theorem C6_amended (s : String) :
    (pyFromIsoformat
        (replaceList ['Z'] ['+', '0', '0', ':', '0', '0'] s.data) = none →
      format_time s = s) ∧
    ∀ dt, pyFromIsoformat
        (replaceList ['Z'] ['+', '0', '0', ':', '0', '0'] s.data) = some dt →
      format_time s = renderCentral (utcMicros dt) ∧
      ∃ mo d y h12 mi ampm tzn,
        format_time s = renderParts mo d y h12 mi ampm tzn := by
  constructor
  · intro h
    unfold format_time
    rw [h]
  · intro dt h
    have hft : format_time s = renderCentral (utcMicros dt) := by
      unfold format_time
      rw [h]
      exact lstrip0_renderCentral _
    obtain ⟨mo, d, y, h12, mi, ampm, tzn, hr⟩ :=
      renderCentral_shape (utcMicros dt)
    exact ⟨hft, mo, d, y, h12, mi, ampm, tzn, hft.trans hr⟩

/-- C6 amended witness: a failing and a succeeding concrete input. -/
theorem C6_amended_witness :
    format_time "not a date" = "not a date" ∧
      format_time "2025-01-06T01:00Z" =
        renderCentral (utcMicros ⟨2025, 1, 6, 1, 0, 0, 0, some 0⟩) :=
  ⟨(C6_amended "not a date").1 (by decide),
    ((C6_amended "2025-01-06T01:00Z").2 ⟨2025, 1, 6, 1, 0, 0, 0, some 0⟩
      (by decide)).1⟩

/-! C7 support: character-level facts. -/

/-- `Char.ofNat` of a code point below the surrogate range keeps it. -/
theorem toNat_ofNat_small (n : Nat) (h : n < 55296) :
    (Char.ofNat n).toNat = n := by
  unfold Char.ofNat
  rw [dif_pos (Or.inl h)]
  rfl

/-- The character-level lower-casing map is idempotent. -/
theorem lowerChar_idem (c : Char) : lowerChar (lowerChar c) = lowerChar c := by
  by_cases h : (65 ≤ c.toNat ∧ c.toNat ≤ 90) ∨
      (192 ≤ c.toNat ∧ c.toNat ≤ 222 ∧ c.toNat ≠ 215)
  · have h1 : lowerChar c = Char.ofNat (c.toNat + 32) := by
      unfold lowerChar
      rw [if_pos h]
    have hval : (Char.ofNat (c.toNat + 32)).toNat = c.toNat + 32 :=
      toNat_ofNat_small _ (by omega)
    rw [h1]
    unfold lowerChar
    rw [if_neg]
    intro hc
    rw [hval] at hc
    omega
  · have h1 : lowerChar c = c := by
      unfold lowerChar
      rw [if_neg h]
    rw [h1, h1]

/-- Characters of a replacement result come from the input or the
replacement text. -/
theorem mem_replaceFuel (pat rep : List Char) (fuel : Nat) (l : List Char)
    (c : Char) (hc : c ∈ replaceFuel pat rep fuel l) : c ∈ l ∨ c ∈ rep := by
  induction fuel generalizing l with
  | zero =>
    cases l with
    | nil => exact absurd hc (List.not_mem_nil c)
    | cons a l => exact Or.inl hc
  | succ f ih =>
    cases l with
    | nil => exact absurd hc (List.not_mem_nil c)
    | cons a l =>
      simp only [replaceFuel] at hc
      split at hc
      · rcases List.mem_append.mp hc with h | h
        · exact Or.inr h
        · rcases ih _ h with h2 | h2
          · exact Or.inl (List.mem_cons_of_mem a (List.mem_of_mem_drop h2))
          · exact Or.inr h2
      · rcases List.mem_cons.mp hc with rfl | h
        · exact Or.inl (List.mem_cons_self _ _)
        · rcases ih _ h with h2 | h2
          · exact Or.inl (List.mem_cons_of_mem a h2)
          · exact Or.inr h2

/-- A pattern that matches at the head of a list has all its characters in
the list. -/
theorem isPrefixOf_subset :
    ∀ (p l : List Char), p.isPrefixOf l = true → ∀ x ∈ p, x ∈ l := by
  intro p
  induction p with
  | nil =>
    intro l _ x hx
    exact absurd hx (List.not_mem_nil x)
  | cons a p ih =>
    intro l h x hx
    cases l with
    | nil => exact absurd h (by simp [List.isPrefixOf])
    | cons b l =>
      simp only [List.isPrefixOf, Bool.and_eq_true, beq_iff_eq] at h
      obtain ⟨h1, h2⟩ := h
      rcases List.mem_cons.mp hx with rfl | hx2
      · subst h1
        exact List.mem_cons_self _ _
      · exact List.mem_cons_of_mem _ (ih l h2 x hx2)

/-- A replacement whose pattern contains a character absent from the input
is the identity. -/
theorem replaceFuel_eq_self (pat rep : List Char) (x : Char) (hx : x ∈ pat)
    (fuel : Nat) (l : List Char) (hnl : x ∉ l) :
    replaceFuel pat rep fuel l = l := by
  induction fuel generalizing l with
  | zero => cases l <;> rfl
  | succ f ih =>
    cases l with
    | nil => rfl
    | cons a l =>
      simp only [replaceFuel]
      rw [if_neg]
      · rw [ih l (fun h => hnl (List.mem_cons_of_mem a h))]
      · rintro ⟨hne, hpre⟩
        exact hnl (isPrefixOf_subset pat (a :: l) hpre x hx)

/-- Replacing a single character by text not containing it removes it (with
enough fuel, i.e. for `replaceList`). -/
theorem replaceFuel_single_removes (x : Char) (rep : List Char)
    (hrep : x ∉ rep) (fuel : Nat) :
    ∀ l : List Char, l.length ≤ fuel → x ∉ replaceFuel [x] rep fuel l := by
  induction fuel with
  | zero =>
    intro l hfuel
    cases l with
    | nil => exact List.not_mem_nil x
    | cons a l => simp at hfuel
  | succ f ih =>
    intro l hfuel
    cases l with
    | nil => exact List.not_mem_nil x
    | cons a l =>
      have hl : l.length ≤ f := by
        simp only [List.length_cons] at hfuel
        omega
      simp only [replaceFuel]
      by_cases hax : ([x] : List Char).isPrefixOf (a :: l) = true
      · rw [if_pos ⟨by simp, hax⟩]
        intro hmem
        rcases List.mem_append.mp hmem with h | h
        · exact hrep h
        · rw [show ([x] : List Char).length - 1 = 0 from rfl,
            List.drop_zero] at h
          exact ih l hl h
      · rw [if_neg (fun hcond => hax hcond.2)]
        intro hmem
        rcases List.mem_cons.mp hmem with rfl | h
        · exact hax (by simp [List.isPrefixOf])
        · exact ih l hl h

/-- A replacement whose text avoids a character keeps it absent. -/
theorem replaceFuel_preserves_absent (pat rep : List Char) (x : Char)
    (hrep : x ∉ rep) (fuel : Nat) (l : List Char) (hl : x ∉ l) :
    x ∉ replaceFuel pat rep fuel l :=
  fun h => (mem_replaceFuel pat rep fuel l x h).elim hl hrep

/-- `replaceList` corollary of `mem_replaceFuel`. -/
theorem mem_replaceList (pat rep l : List Char) (c : Char)
    (hc : c ∈ replaceList pat rep l) : c ∈ l ∨ c ∈ rep :=
  mem_replaceFuel pat rep l.length l c hc

/-- `replaceList` corollary of `replaceFuel_eq_self`. -/
theorem replaceList_eq_self (pat rep : List Char) (x : Char) (hx : x ∈ pat)
    (l : List Char) (hnl : x ∉ l) : replaceList pat rep l = l :=
  replaceFuel_eq_self pat rep x hx l.length l hnl

/-- `replaceList` corollary of `replaceFuel_single_removes`. -/
theorem replaceList_single_removes (x : Char) (rep : List Char)
    (hrep : x ∉ rep) (l : List Char) : x ∉ replaceList [x] rep l :=
  replaceFuel_single_removes x rep hrep l.length l (le_refl _)

/-- `replaceList` corollary of `replaceFuel_preserves_absent`. -/
theorem replaceList_preserves_absent (pat rep : List Char) (x : Char)
    (hrep : x ∉ rep) (l : List Char) (hl : x ∉ l) :
    x ∉ replaceList pat rep l :=
  replaceFuel_preserves_absent pat rep x hrep l.length l hl

/-- Stripping only drops characters. -/
theorem mem_stripWs (l : List Char) (c : Char) (h : c ∈ stripWs l) :
    c ∈ l := by
  unfold stripWs at h
  rw [List.mem_reverse] at h
  have h2 := (List.dropWhile_sublist pyIsSpace).subset h
  rw [List.mem_reverse] at h2
  exact (List.dropWhile_sublist pyIsSpace).subset h2

/-- Stripping is the identity when both ends are non-whitespace. -/
theorem stripWs_eq_self (l : List Char)
    (hhead : ∀ c, l.head? = some c → pyIsSpace c = false)
    (hlast : ∀ c, l.getLast? = some c → pyIsSpace c = false) :
    stripWs l = l := by
  unfold stripWs
  rw [dropWhile_eq_self_of_head pyIsSpace l hhead]
  rw [dropWhile_eq_self_of_head pyIsSpace l.reverse
    (fun c hc => hlast c (by rwa [List.head?_reverse] at hc))]
  exact List.reverse_reverse l

/-- A map that fixes every element of a list is the identity on it. -/
theorem map_eq_self_of (f : Char → Char) (l : List Char)
    (h : ∀ c ∈ l, f c = c) : l.map f = l := by
  induction l with
  | nil => rfl
  | cons a l ih =>
    rw [List.map_cons, h a (List.mem_cons_self _ _),
      ih (fun c hc => h c (List.mem_cons_of_mem _ hc))]

/-! C7 support: splitting into words and joining back. -/

/-- Consuming a whitespace-free block accumulates it reversed. -/
theorem wordsAux_word (w l : List Char) :
    ∀ acc, (∀ c ∈ w, pyIsSpace c = false) →
      wordsAux (w ++ l) acc = wordsAux l (w.reverse ++ acc) := by
  induction w with
  | nil =>
    intro acc _
    simp
  | cons c w ih =>
    intro acc hw
    have hc := hw c (List.mem_cons_self c w)
    simp only [List.cons_append, wordsAux, hc, Bool.false_eq_true, if_false]
    show wordsAux (w ++ l) (c :: acc) = wordsAux l ((c :: w).reverse ++ acc)
    rw [ih (c :: acc) (fun d hd => hw d (List.mem_cons_of_mem _ hd))]
    simp [List.reverse_cons, List.append_assoc]

/-- Splitting the joined form of non-empty whitespace-free words restores
exactly those words. -/
theorem pyWords_joinWords (ws : List (List Char))
    (h : ∀ w ∈ ws, w ≠ [] ∧ ∀ c ∈ w, pyIsSpace c = false) :
    pyWords (joinWords ws) = ws := by
  induction ws with
  | nil => rfl
  | cons w ws ih =>
    obtain ⟨hw1, hw2⟩ := h w (List.mem_cons_self _ _)
    have hsub : ∀ w' ∈ ws, w' ≠ [] ∧ ∀ c ∈ w', pyIsSpace c = false :=
      fun w' hw' => h w' (List.mem_cons_of_mem _ hw')
    cases ws with
    | nil =>
      show wordsAux w [] = [w]
      have hw := wordsAux_word w [] [] hw2
      rw [List.append_nil, List.append_nil] at hw
      rw [hw]
      simp [wordsAux, List.reverse_eq_nil_iff, hw1]
    | cons w2 ws2 =>
      show wordsAux (w ++ ' ' :: joinWords (w2 :: ws2)) [] = w :: w2 :: ws2
      rw [wordsAux_word w _ [] hw2, List.append_nil]
      have hrev : w.reverse ≠ [] := by
        simpa [List.reverse_eq_nil_iff] using hw1
      simp only [wordsAux, show pyIsSpace ' ' = true from rfl, if_pos,
        hrev, if_neg, List.reverse_reverse]
      rw [if_neg not_false]
      exact congrArg _ (ih hsub)

/-- Every word produced by the splitter is non-empty and
whitespace-free. -/
theorem wordsAux_good (l : List Char) :
    ∀ acc w, (∀ c ∈ acc, pyIsSpace c = false) → w ∈ wordsAux l acc →
      w ≠ [] ∧ ∀ c ∈ w, pyIsSpace c = false := by
  induction l with
  | nil =>
    intro acc w hacc hw
    simp only [wordsAux] at hw
    split at hw
    · exact absurd hw (List.not_mem_nil w)
    · rename_i hne
      rw [List.mem_singleton] at hw
      subst hw
      refine ⟨by simpa [List.reverse_eq_nil_iff] using hne, ?_⟩
      intro c hc
      exact hacc c (List.mem_reverse.mp hc)
  | cons a l ih =>
    intro acc w hacc hw
    simp only [wordsAux] at hw
    by_cases ha : pyIsSpace a = true
    · rw [if_pos ha] at hw
      split at hw
      · exact ih [] w (fun c hc => absurd hc (List.not_mem_nil c)) hw
      · rename_i hne
        rcases List.mem_cons.mp hw with rfl | hw2
        · refine ⟨by simpa [List.reverse_eq_nil_iff] using hne, ?_⟩
          intro c hc
          exact hacc c (List.mem_reverse.mp hc)
        · exact ih [] w (fun c hc => absurd hc (List.not_mem_nil c)) hw2
    · rw [if_neg ha] at hw
      refine ih (a :: acc) w ?_ hw
      intro c hc
      rcases List.mem_cons.mp hc with rfl | h2
      · exact Bool.not_eq_true _ ▸ (by simpa using ha)
      · exact hacc c h2

/-- Characters of produced words come from the input or the
accumulator. -/
theorem wordsAux_subset (l : List Char) :
    ∀ acc w c, w ∈ wordsAux l acc → c ∈ w → c ∈ l ∨ c ∈ acc := by
  induction l with
  | nil =>
    intro acc w c hw hc
    simp only [wordsAux] at hw
    split at hw
    · exact absurd hw (List.not_mem_nil w)
    · rw [List.mem_singleton] at hw
      subst hw
      exact Or.inr (List.mem_reverse.mp hc)
  | cons a l ih =>
    intro acc w c hw hc
    simp only [wordsAux] at hw
    split at hw
    · split at hw
      · rcases ih [] w c hw hc with h | h
        · exact Or.inl (List.mem_cons_of_mem a h)
        · exact absurd h (List.not_mem_nil c)
      · rcases List.mem_cons.mp hw with rfl | hw2
        · exact Or.inr (List.mem_reverse.mp hc)
        · rcases ih [] w c hw2 hc with h | h
          · exact Or.inl (List.mem_cons_of_mem a h)
          · exact absurd h (List.not_mem_nil c)
    · rcases ih (a :: acc) w c hw hc with h | h
      · exact Or.inl (List.mem_cons_of_mem a h)
      · rcases List.mem_cons.mp h with rfl | h2
        · exact Or.inl (List.mem_cons_self _ _)
        · exact Or.inr h2

/-- Characters of a joined word list are separators or word characters. -/
theorem mem_joinWords (ws : List (List Char)) (c : Char)
    (hc : c ∈ joinWords ws) : c = ' ' ∨ ∃ w ∈ ws, c ∈ w := by
  induction ws with
  | nil => exact absurd hc (List.not_mem_nil c)
  | cons w ws ih =>
    cases ws with
    | nil => exact Or.inr ⟨w, List.mem_cons_self w [], hc⟩
    | cons w2 ws2 =>
      simp only [joinWords] at hc
      rcases List.mem_append.mp hc with h | h
      · exact Or.inr ⟨w, List.mem_cons_self _ _, h⟩
      · rcases List.mem_cons.mp h with rfl | h2
        · exact Or.inl rfl
        · rcases ih h2 with h3 | ⟨w', hw', hcw⟩
          · exact Or.inl h3
          · exact Or.inr ⟨w', List.mem_cons_of_mem _ hw', hcw⟩

/-- Joining a list headed by a non-empty word is non-empty. -/
theorem joinWords_ne_nil (w : List Char) (ws : List (List Char))
    (hw : w ≠ []) : joinWords (w :: ws) ≠ [] := by
  cases ws with
  | nil => exact hw
  | cons w2 ws2 =>
    simp only [joinWords]
    intro h
    exact hw (List.nil_eq_append_iff.mp h.symm).1

/-- The head of a joined word list is the head of its first word. -/
theorem joinWords_head (w : List Char) (ws : List (List Char)) (hw : w ≠ []) :
    (joinWords (w :: ws)).head? = w.head? := by
  cases ws with
  | nil => rfl
  | cons w2 ws2 =>
    simp only [joinWords]
    rw [List.head?_append]
    cases hh : w.head? with
    | some c => rfl
    | none => exact absurd (List.head?_eq_none_iff.mp hh) hw

/-- The last character of a joined list of good words is a word character,
hence not whitespace. -/
theorem joinWords_getLast_ne_space (ws : List (List Char))
    (h : ∀ w ∈ ws, w ≠ [] ∧ ∀ c ∈ w, pyIsSpace c = false) :
    ∀ c, (joinWords ws).getLast? = some c → pyIsSpace c = false := by
  induction ws with
  | nil =>
    intro c hc
    cases hc
  | cons w ws ih =>
    intro c hc
    cases ws with
    | nil =>
      obtain ⟨_, hw2⟩ := h w (List.mem_cons_self _ _)
      exact hw2 c (List.mem_of_mem_getLast? hc)
    | cons w2 ws2 =>
      obtain ⟨hw21, _⟩ := h w2 (List.mem_cons_of_mem _ (List.mem_cons_self _ _))
      have hne : joinWords (w2 :: ws2) ≠ [] := joinWords_ne_nil w2 ws2 hw21
      simp only [joinWords] at hc
      rw [List.getLast?_append_of_ne_nil _ (List.cons_ne_nil _ _)] at hc
      rw [show (' ' :: joinWords (w2 :: ws2)) = [' '] ++ joinWords (w2 :: ws2)
        from rfl] at hc
      rw [List.getLast?_append_of_ne_nil _ hne] at hc
      exact ih (fun w' hw' => h w' (List.mem_cons_of_mem _ hw')) c hc

/-! C7: the normal form of `normalize` outputs. -/

/-- Words of a normalized string: non-empty, whitespace-free, fixed under
lower-casing, free of the replaced punctuation characters. -/
def goodWords (ws : List (List Char)) : Prop :=
  ∀ w ∈ ws, w ≠ [] ∧ ∀ c ∈ w,
    pyIsSpace c = false ∧ lowerChar c = c ∧
      c ∉ (['&', '.', ',', '-', '\''] : List Char)

/-- A string is in normal form when it is a single-space join of good
words (the empty string is the join of no words). -/
def normalForm (t : List Char) : Prop :=
  ∃ ws, goodWords ws ∧ t = joinWords ws

/-- Every character surviving the replacement chain is fixed under
lower-casing. -/
theorem normalizeChain_fixed (l : List Char) :
    ∀ c ∈ normalizeChain l, lowerChar c = c := by
  intro c hc
  unfold normalizeChain at hc
  have hsp : ∀ d ∈ ([' '] : List Char), lowerChar d = d := by decide
  have hand : ∀ d ∈ ([' ', 'a', 'n', 'd', ' '] : List Char),
      lowerChar d = d := by decide
  rcases mem_replaceList _ _ _ _ hc with hc | hc
  swap
  · exact absurd hc (List.not_mem_nil c)
  rcases mem_replaceList _ _ _ _ hc with hc | hc
  swap
  · exact absurd hc (List.not_mem_nil c)
  rcases mem_replaceList _ _ _ _ hc with hc | hc
  swap
  · exact hsp c hc
  rcases mem_replaceList _ _ _ _ hc with hc | hc
  swap
  · exact hsp c hc
  rcases mem_replaceList _ _ _ _ hc with hc | hc
  swap
  · exact absurd hc (List.not_mem_nil c)
  rcases mem_replaceList _ _ _ _ hc with hc | hc
  swap
  · exact absurd hc (List.not_mem_nil c)
  rcases mem_replaceList _ _ _ _ hc with hc | hc
  swap
  · exact hand c hc
  have hmem := mem_stripWs _ c hc
  rw [List.mem_map] at hmem
  obtain ⟨d, _, rfl⟩ := hmem
  exact lowerChar_idem d

/-- None of the five replaced punctuation characters survives the
replacement chain. -/
theorem normalizeChain_no_specials (l : List Char) :
    ∀ x ∈ (['&', '.', ',', '-', '\''] : List Char),
      x ∉ normalizeChain l := by
  intro x hx
  unfold normalizeChain
  fin_cases hx
  · -- '&' removed first, preserved afterwards
    refine replaceList_preserves_absent _ _ _ (by decide) _
      (replaceList_preserves_absent _ _ _ (by decide) _
        (replaceList_preserves_absent _ _ _ (by decide) _
          (replaceList_preserves_absent _ _ _ (by decide) _
            (replaceList_preserves_absent _ _ _ (by decide) _
              (replaceList_preserves_absent _ _ _ (by decide) _
                (replaceList_single_removes _ _ (by decide) _))))))
  · refine replaceList_preserves_absent _ _ _ (by decide) _
      (replaceList_preserves_absent _ _ _ (by decide) _
        (replaceList_preserves_absent _ _ _ (by decide) _
          (replaceList_preserves_absent _ _ _ (by decide) _
            (replaceList_preserves_absent _ _ _ (by decide) _
              (replaceList_single_removes _ _ (by decide) _)))))
  · refine replaceList_preserves_absent _ _ _ (by decide) _
      (replaceList_preserves_absent _ _ _ (by decide) _
        (replaceList_preserves_absent _ _ _ (by decide) _
          (replaceList_preserves_absent _ _ _ (by decide) _
            (replaceList_single_removes _ _ (by decide) _))))
  · refine replaceList_preserves_absent _ _ _ (by decide) _
      (replaceList_preserves_absent _ _ _ (by decide) _
        (replaceList_preserves_absent _ _ _ (by decide) _
          (replaceList_single_removes _ _ (by decide) _)))
  · exact replaceList_preserves_absent _ _ _ (by decide) _
      (replaceList_single_removes _ _ (by decide) _)

/-- Collapsing whitespace of a fixed, punctuation-free string yields a
normal form. -/
theorem collapseWs_normalForm (l : List Char)
    (hfix : ∀ c ∈ l, lowerChar c = c)
    (hspec : ∀ c ∈ l, c ∉ (['&', '.', ',', '-', '\''] : List Char)) :
    normalForm (collapseWs l) := by
  refine ⟨pyWords l, ?_, rfl⟩
  intro w hw
  obtain ⟨h1, h2⟩ := wordsAux_good l [] w
    (fun c hc => absurd hc (List.not_mem_nil c)) hw
  refine ⟨h1, fun c hc => ⟨h2 c hc, ?_, ?_⟩⟩
  · rcases wordsAux_subset l [] w c hw hc with h | h
    · exact hfix c h
    · exact absurd h (List.not_mem_nil c)
  · rcases wordsAux_subset l [] w c hw hc with h | h
    · exact hspec c h
    · exact absurd h (List.not_mem_nil c)

/-- The output of `normalize` is always in normal form. -/
theorem normalizeL_normalForm (l : List Char) :
    normalForm (normalizeL l) := by
  unfold normalizeL
  split
  · exact ⟨[], fun w hw => absurd hw (List.not_mem_nil w), rfl⟩
  · exact collapseWs_normalForm _ (normalizeChain_fixed l)
      (fun c hc hmem => normalizeChain_no_specials l c hmem hc)

/-- `normalize` is the identity on normal forms. -/
theorem normalizeL_of_normalForm (t : List Char) (h : normalForm t) :
    normalizeL t = t := by
  obtain ⟨ws, hgood, rfl⟩ := h
  cases ws with
  | nil => rfl
  | cons w ws' =>
    obtain ⟨hw1, hw2all⟩ := hgood w (List.mem_cons_self _ _)
    have hw2 : ∀ c ∈ w, pyIsSpace c = false :=
      fun c hc => (hw2all c hc).1
    have hne : joinWords (w :: ws') ≠ [] := joinWords_ne_nil w ws' hw1
    have hwordOk : ∀ w' ∈ w :: ws', w' ≠ [] ∧
        ∀ c ∈ w', pyIsSpace c = false :=
      fun w' hw' => ⟨(hgood w' hw').1, fun c hc => ((hgood w' hw').2 c hc).1⟩
    have hfix : ∀ c ∈ joinWords (w :: ws'), lowerChar c = c := by
      intro c hc
      rcases mem_joinWords _ c hc with rfl | ⟨w', hw', hcw⟩
      · decide
      · exact ((hgood w' hw').2 c hcw).2.1
    have hnospec : ∀ x ∈ (['&', '.', ',', '-', '\''] : List Char),
        x ∉ joinWords (w :: ws') := by
      intro x hx hmem
      rcases mem_joinWords _ x hmem with rfl | ⟨w', hw', hcw⟩
      · revert hx
        decide
      · exact ((hgood w' hw').2 x hcw).2.2 hx
    have hA : 'Ä' ∉ joinWords (w :: ws') := by
      intro hmem
      have hfixA := hfix _ hmem
      revert hfixA
      decide
    unfold normalizeL
    rw [if_neg hne]
    have hmap : (joinWords (w :: ws')).map lowerChar = joinWords (w :: ws') :=
      map_eq_self_of _ _ hfix
    have hstrip : stripWs (joinWords (w :: ws')) = joinWords (w :: ws') := by
      apply stripWs_eq_self
      · intro c hc
        rw [joinWords_head w ws' hw1] at hc
        exact hw2 c (List.mem_of_mem_head? hc)
      · exact joinWords_getLast_ne_space _ hwordOk
    have hchain : normalizeChain (joinWords (w :: ws')) =
        joinWords (w :: ws') := by
      unfold normalizeChain
      rw [hmap, hstrip]
      rw [replaceList_eq_self _ _ '&' (by decide) _ (hnospec '&' (by decide))]
      rw [replaceList_eq_self _ _ '.' (by decide) _ (hnospec '.' (by decide))]
      rw [replaceList_eq_self _ _ ',' (by decide) _ (hnospec ',' (by decide))]
      rw [replaceList_eq_self _ _ '-' (by decide) _ (hnospec '-' (by decide))]
      rw [replaceList_eq_self _ _ 'Ä' (by decide) _ hA]
      rw [replaceList_eq_self _ _ '\'' (by decide) _
        (hnospec '\'' (by decide))]
      rw [replaceList_eq_self _ _ 'Ä' (by decide) _ hA]
    rw [hchain]
    unfold collapseWs
    rw [pyWords_joinWords _ hwordOk]

/-- C7: the name normalizer is idempotent. -/
theorem C7_normalize_idempotent (s : String) :
    normalize (normalize s) = normalize s := by
  unfold normalize
  rw [show (String.mk (normalizeL s.data)).data = normalizeL s.data from rfl]
  rw [normalizeL_of_normalForm _ (normalizeL_normalForm s.data)]

end CheckGames
